import Mathlib

/-!
Verification of the Datasearch ingestion/enrichment core.

This file gives a shallow embedding, in Lean 4, of the parts of the
repository that the specification's testable properties talk about:

* `lib/models/dataset.py` — the `Dataset` row shape and the
  `EnrichmentStatus` enum (timestamps are modelled as integers, the
  384-float embedding as an optional list of floats, the JSONB blob as an
  optional string);
* `lib/repositories/dataset.py` — `upsert`, `bulk_upsert`,
  `get_pending_for_enrichment`, `get_for_embedding_generation`,
  `mark_enriching`, `mark_failed`, over a database modelled as a list of
  rows (the Postgres `ON CONFLICT (source_name, external_id) DO UPDATE`
  is modelled as an in-place update of the matching row);
* `lib/services/enrichment/client_hf.py` — the paginated incremental
  fetcher, its cutoff handling, and the tenacity retry wrapper around
  `_fetch_page`;
* `lib/schemas/dataset.py` — the `HFDatasetDTO` derived `license` and
  `get_update_time`;
* `lib/services/enrichment/kaggle_parser/services/meta_parser.py` —
  `_filter_by_date`;
* `lib/services/ml/embedder.py` — `encode` and `encode_dataset_metadata`
  (the sentence-transformer model is an abstract function parameter).
-/

namespace Datasearch

/-- `EnrichmentStatus` from `lib/models/dataset.py`. -/
inductive EnrichmentStatus where
  | minimal
  | pending
  | enriching
  | enriched
  | failed
  | skipped
deriving DecidableEq, Repr

/-- The `.value` of each enum member (the string stored in the column). -/
def EnrichmentStatus.value : EnrichmentStatus → String
  | .minimal => "minimal"
  | .pending => "pending"
  | .enriching => "enriching"
  | .enriched => "enriched"
  | .failed => "failed"
  | .skipped => "skipped"

/-- The field set a caller hands to `DatasetRepository.upsert` /
`bulk_upsert` (the `values(...)` list in `lib/repositories/dataset.py`,
i.e. every `Dataset` column except the generated `id`, `created_at`,
`updated_at`). -/
structure Dataset where
  source_name : String
  external_id : String
  title : String
  url : String
  description : Option String
  tags : Option (List String)
  license : Option String
  file_formats : Option (List String)
  total_size_bytes : Option Int
  column_names : Option (List String)
  row_count : Option Int
  download_count : Int
  view_count : Int
  like_count : Int
  source_created_at : Option Int
  source_updated_at : Option Int
  embedding : Option (List Float)
  static_score : Option Float
  is_active : Bool
  enrichment_status : String
  enrichment_attempts : Int
  last_enrichment_error : Option String
  last_enriched_at : Option Int
  last_checked_at : Option Int
  source_meta : Option String

/-- A persisted `datasets` row: the writable columns plus the generated
`id` (UUID, modelled as `Nat`) and the `created_at` / `updated_at`
timestamps. -/
structure DatasetRow extends Dataset where
  id : Nat
  created_at : Int
  updated_at : Int

/-- The database table, as the list of its rows. -/
abbrev Db := List DatasetRow

/-- The natural key (`source_name`, `external_id`) of `d` matches row
`r` — the `ON CONFLICT` index `idx_unique_external_dataset`. -/
def keyMatches (d : Dataset) (r : DatasetRow) : Bool :=
  r.source_name == d.source_name && r.external_id == d.external_id

/-- A freshly inserted row: all 24 written columns from the incoming
dataset, a generated id, and `created_at = updated_at = now`. -/
def insertRow (d : Dataset) (newId : Nat) (now : Int) : DatasetRow :=
  { toDataset := d, id := newId, created_at := now, updated_at := now }

/-- The `set_` clause of the single-record `upsert`'s
`on_conflict_do_update`: every descriptive field plus `embedding`,
`static_score`, `is_active`, `enrichment_status`, `last_enriched_at`,
`source_meta`, and a bumped `updated_at`.  `enrichment_attempts`,
`last_enrichment_error` and `last_checked_at` are absent from the
clause, so the existing row keeps them. -/
def applyUpsertSet (d : Dataset) (now : Int) (r : DatasetRow) : DatasetRow :=
  { r with
    title := d.title
    url := d.url
    description := d.description
    tags := d.tags
    license := d.license
    file_formats := d.file_formats
    total_size_bytes := d.total_size_bytes
    column_names := d.column_names
    row_count := d.row_count
    download_count := d.download_count
    view_count := d.view_count
    like_count := d.like_count
    source_created_at := d.source_created_at
    source_updated_at := d.source_updated_at
    embedding := d.embedding
    static_score := d.static_score
    is_active := d.is_active
    enrichment_status := d.enrichment_status
    last_enriched_at := d.last_enriched_at
    source_meta := d.source_meta
    updated_at := now }

/-- The `set_` clause of `bulk_upsert`'s `on_conflict_do_update`: only
the descriptive fields, `is_active`, `source_meta` and `updated_at`.
Neither `embedding`, `static_score`, `enrichment_status`,
`enrichment_attempts`, `last_enrichment_error`, `last_enriched_at` nor
`last_checked_at` is touched. -/
def applyBulkSet (d : Dataset) (now : Int) (r : DatasetRow) : DatasetRow :=
  { r with
    title := d.title
    url := d.url
    description := d.description
    tags := d.tags
    license := d.license
    file_formats := d.file_formats
    total_size_bytes := d.total_size_bytes
    column_names := d.column_names
    row_count := d.row_count
    download_count := d.download_count
    view_count := d.view_count
    like_count := d.like_count
    source_created_at := d.source_created_at
    source_updated_at := d.source_updated_at
    is_active := d.is_active
    source_meta := d.source_meta
    updated_at := now }

namespace DatasetRepository

/-- `DatasetRepository.upsert`: insert the row, or on a natural-key
conflict apply the single-record `set_` clause to the existing row. -/
def upsert (db : Db) (d : Dataset) (newId : Nat) (now : Int) : Db :=
  if db.any (keyMatches d) then
    db.map (fun r => if keyMatches d r then applyUpsertSet d now r else r)
  else
    db ++ [insertRow d newId now]

/-- One row of the `bulk_upsert` statement: insert, or on conflict apply
the bulk `set_` clause (whose values come from `excluded`, i.e. from the
incoming dataset). -/
def bulkStep (db : Db) (d : Dataset) (newId : Nat) (now : Int) : Db :=
  if db.any (keyMatches d) then
    db.map (fun r => if keyMatches d r then applyBulkSet d now r else r)
  else
    db ++ [insertRow d newId now]

/-- `DatasetRepository.bulk_upsert`: the multi-row insert with
`on_conflict_do_update`; an empty batch is a no-op (`if not datasets:
return 0`). -/
def bulk_upsert (db : Db) (ds : List Dataset) (baseId : Nat) (now : Int) : Db :=
  match ds with
  | [] => db
  | d :: rest => bulk_upsert (bulkStep db d baseId now) rest (baseId + 1) now

/-- The `where` clause of `get_pending_for_enrichment`: same source,
status `minimal` or `pending`, attempts below the ceiling, active. -/
def matchesPending (source_name : String) (max_attempts : Int)
    (r : DatasetRow) : Bool :=
  r.source_name == source_name &&
    (r.enrichment_status == EnrichmentStatus.minimal.value ||
      r.enrichment_status == EnrichmentStatus.pending.value) &&
    decide (r.enrichment_attempts < max_attempts) &&
    r.is_active

/-- Insert a row into a list kept sorted by ascending `created_at`. -/
def insertByCreated (r : DatasetRow) : List DatasetRow → List DatasetRow
  | [] => [r]
  | x :: xs =>
    if r.created_at ≤ x.created_at then r :: x :: xs
    else x :: insertByCreated r xs

/-- `ORDER BY created_at ASC`, as an insertion sort. -/
def sortByCreatedAsc : List DatasetRow → List DatasetRow
  | [] => []
  | x :: xs => insertByCreated x (sortByCreatedAsc xs)

/-- `DatasetRepository.get_pending_for_enrichment`: filter, order by
`created_at` ascending, take `limit`. -/
def get_pending_for_enrichment (db : Db) (source_name : String)
    (limit : Nat) (max_attempts : Int) : List DatasetRow :=
  (sortByCreatedAsc (db.filter (matchesPending source_name max_attempts))).take limit

/-- The `where` clause of `get_for_embedding_generation`: status
`enriched`, no embedding, active. -/
def matchesEmbedding (r : DatasetRow) : Bool :=
  r.enrichment_status == EnrichmentStatus.enriched.value &&
    r.embedding.isNone && r.is_active

/-- `DatasetRepository.get_for_embedding_generation`: filter and take
`limit` (the query has no `order_by`). -/
def get_for_embedding_generation (db : Db) (limit : Nat) : List DatasetRow :=
  (db.filter matchesEmbedding).take limit

/-- `DatasetRepository.mark_enriching`: `UPDATE ... SET
enrichment_status = 'enriching', enrichment_attempts =
enrichment_attempts + 1 WHERE id = dataset_id`. -/
def mark_enriching (db : Db) (dataset_id : Nat) : Db :=
  db.map (fun r =>
    if r.id == dataset_id then
      { r with
        enrichment_status := EnrichmentStatus.enriching.value
        enrichment_attempts := r.enrichment_attempts + 1 }
    else r)

/-- `DatasetRepository.mark_failed`: `UPDATE ... SET enrichment_status =
'failed', last_enrichment_error = message, is_active = false WHERE id =
dataset_id`. -/
def mark_failed (db : Db) (dataset_id : Nat) (error_message : String) : Db :=
  db.map (fun r =>
    if r.id == dataset_id then
      { r with
        enrichment_status := EnrichmentStatus.failed.value
        last_enrichment_error := some error_message
        is_active := false }
    else r)

end DatasetRepository

/-- Look a row up by natural key. -/
def findByKey (db : Db) (sn eid : String) : Option DatasetRow :=
  db.find? (fun r => r.source_name == sn && r.external_id == eid)

/-- Look a row up by id. -/
def findById (db : Db) (i : Nat) : Option DatasetRow :=
  db.find? (fun r => r.id == i)

/-- Number of rows carrying a given natural key. -/
def countKey (db : Db) (sn eid : String) : Nat :=
  (db.filter (fun r => r.source_name == sn && r.external_id == eid)).length

/-- The unique index `idx_unique_external_dataset`: no two rows share a
natural key. -/
def KeyUnique (db : Db) : Prop :=
  db.Pairwise (fun a b =>
    ¬(a.source_name = b.source_name ∧ a.external_id = b.external_id))

/-- Primary-key uniqueness of the generated ids. -/
def IdUnique (db : Db) : Prop :=
  db.Pairwise (fun a b => a.id ≠ b.id)

/-! ## `lib/schemas/dataset.py` — the HuggingFace DTO -/

/-- The shape of `card_data["license"]` in a raw HuggingFace record:
a string, a list (whose elements we render as strings, as the code does
with `str(lic[0])`), or any other JSON value. -/
inductive LicenseField where
  | lStr (s : String)
  | lList (xs : List String)
  | lOther
deriving DecidableEq, Repr

/-- `HFDatasetDTO` (the fields the verified properties read).
`card_license` is `card_data["license"]` when `card_data` is non-empty
and has the key, `none` otherwise; timestamps are integers. -/
structure HFDatasetDTO where
  id : String
  last_modified : Option Int
  created_at : Option Int
  tags : List String
  card_license : Option LicenseField
deriving DecidableEq, Repr

/-- The tag scan in `HFDatasetDTO.license`: return the part after the
first colon of the first tag starting with `license:`. -/
def tagLicense : List String → Option String
  | [] => none
  | t :: rest =>
    if t.startsWith ("license:") then some (t.drop 8) else tagLicense rest

/-- `HFDatasetDTO.license`: prefer `card_data["license"]` — first
element if a non-empty list, the string itself if a string — otherwise
fall through to the tag scan. -/
def HFDatasetDTO.license (d : HFDatasetDTO) : Option String :=
  match d.card_license with
  | some (.lList (x :: _)) => some x
  | some (.lStr s) => some s
  | _ => tagLicense d.tags

/-- `HFDatasetDTO.get_update_time`: `last_modified`, else `created_at`,
else the current time (`now` is passed in explicitly). -/
def HFDatasetDTO.get_update_time (d : HFDatasetDTO) (now : Int) : Int :=
  match d.last_modified with
  | some t => t
  | none =>
    match d.created_at with
    | some t => t
    | none => now

/-! ## `lib/services/enrichment/client_hf.py` — incremental fetcher -/

/-- The parse result of one raw item of a page
(`_parse_raw_item`: a DTO, or `none` when validation failed). -/
abbrev RawItem := Option HFDatasetDTO

namespace HuggingFaceClient

/-- `_is_dataset_too_old`: with no cutoff nothing is old; with cutoff
`m`, old means update time strictly before `m`. -/
def is_dataset_too_old (dto : HFDatasetDTO) (min_last_modified : Option Int)
    (now : Int) : Bool :=
  match min_last_modified with
  | none => false
  | some m => decide (dto.get_update_time now < m)

/-- `_process_raw_batch`: walk the page, skip items that failed to
parse, stop (returning the batch collected so far and `true`) at the
first item older than the cutoff, otherwise collect the item. -/
def process_raw_batch (now : Int) (min_last_modified : Option Int) :
    List RawItem → List HFDatasetDTO × Bool
  | [] => ([], false)
  | none :: rest => process_raw_batch now min_last_modified rest
  | some dto :: rest =>
    if is_dataset_too_old dto min_last_modified now then ([], true)
    else
      let (b, s) := process_raw_batch now min_last_modified rest
      (dto :: b, s)

/-- `_should_stop_pagination`: the page is empty or undersized. -/
def should_stop_pagination (raw : List RawItem) (batch_size : Nat) : Bool :=
  raw.isEmpty || decide (raw.length < batch_size)

/-- The `while fetched_count < limit` loop of `fetch_latest_datasets`.
The source is the list of remaining pages (requesting past the end is
the 404 that `_fetch_single_batch` turns into `None`).  Returns the
yielded batches and the number of page requests issued. -/
def fetchLoop (limit batch_size : Nat) (min_last_modified : Option Int)
    (now : Int) : List (List RawItem) → Nat → List (List HFDatasetDTO) × Nat
  | [], fetched =>
    if fetched < limit then ([], 1) else ([], 0)
  | raw :: rest, fetched =>
    if fetched < limit then
      if should_stop_pagination raw batch_size then ([], 1)
      else
        let (batch, stop) := process_raw_batch now min_last_modified raw
        if stop then ((if batch.isEmpty then [] else [batch]), 1)
        else
          let (tl, reqs) :=
            fetchLoop limit batch_size min_last_modified now rest
              (fetched + batch.length)
          ((if batch.isEmpty then tl else batch :: tl), 1 + reqs)
    else ([], 0)

/-- `fetch_latest_datasets`: run the pagination loop from offset 0 with
no records fetched yet. -/
def fetch_latest_datasets (pages : List (List RawItem))
    (limit batch_size : Nat) (min_last_modified : Option Int) (now : Int) :
    List (List HFDatasetDTO) × Nat :=
  fetchLoop limit batch_size min_last_modified now pages 0

/-! ### the tenacity retry wrapper around `_fetch_page` -/

/-- What one bare `_fetch_page` call can raise: `httpx.ConnectError`,
`httpx.TimeoutException`, an `httpx.HTTPStatusError` carrying the
response status code (from `raise_for_status`), or any other error. -/
inductive FetchError where
  | connectError
  | timeoutError
  | httpStatusError (code : Nat)
  | otherError
deriving DecidableEq, Repr

/-- The `retry_if_exception_type((httpx.ConnectError,
httpx.TimeoutException, httpx.HTTPStatusError))` predicate on the
`@retry` decorator of `_fetch_page`. -/
def isRetryableError : FetchError → Bool
  | .connectError => true
  | .timeoutError => true
  | .httpStatusError _ => true
  | .otherError => false

/-- The tenacity loop: attempt `i` runs `responses i`; a success
returns; a failure retries while the predicate holds and attempts
remain, and otherwise is re-raised (`reraise=True`).  Returns the
result and the number of attempts (page requests) made. -/
def retryCall (responses : Nat → Except FetchError (List RawItem)) :
    Nat → Nat → Except FetchError (List RawItem) × Nat
  | i, 0 => (.error .otherError, i)
  | i, remaining + 1 =>
    match responses i with
    | .ok v => (.ok v, i + 1)
    | .error e =>
      if isRetryableError e && decide (0 < remaining) then
        retryCall responses (i + 1) remaining
      else (.error e, i + 1)

/-- `_fetch_page` with its decorator: `stop_after_attempt(5)`. -/
def fetch_page (responses : Nat → Except FetchError (List RawItem)) :
    Except FetchError (List RawItem) × Nat :=
  retryCall responses 0 5

/-- `_fetch_single_batch`: call `_fetch_page`; an `HTTPStatusError`
whose status code is 404 becomes a clean `None` (end of data), every
other error propagates. -/
def fetch_single_batch (responses : Nat → Except FetchError (List RawItem)) :
    Except FetchError (Option (List RawItem)) × Nat :=
  match fetch_page responses with
  | (.ok v, n) => (.ok (some v), n)
  | (.error (.httpStatusError code), n) =>
    if code == 404 then (.ok none, n)
    else (.error (.httpStatusError code), n)
  | (.error e, n) => (.error e, n)

end HuggingFaceClient

/-! ## `kaggle_parser/services/meta_parser.py` — bulk date filter -/

/-- One row of the Meta Kaggle `Datasets.csv` dataframe (the columns
the filter reads; dates are integers, a missing date is `none`). -/
structure KaggleCsvRow where
  Id : Int
  CreationDate : Option Int
  LastActivityDate : Option Int
deriving DecidableEq, Repr

namespace MetaKaggleParser

/-- `_filter_by_date`: with no minimum date the dataframe is returned
unchanged; otherwise keep the rows whose `LastActivityDate` is missing
(`pd.isna`) or `≥ min_date`. -/
def filter_by_date (df : List KaggleCsvRow) (min_date : Option Int) :
    List KaggleCsvRow :=
  match min_date with
  | none => df
  | some m =>
    df.filter (fun r =>
      match r.LastActivityDate with
      | none => true
      | some d => decide (m ≤ d))

end MetaKaggleParser

/-! ## `lib/services/ml/embedder.py` — embedding service -/

namespace EmbeddingService

/-- The `" ".join(...)` of Python. -/
def joinSpace : List String → String
  | [] => ""
  | [x] => x
  | x :: y :: xs => x ++ " " ++ joinSpace (y :: xs)

/-- The `t if t else ""` guard applied to each input text. -/
def valid_text (t : String) : String :=
  if t == "" then "" else t

/-- `EmbeddingService.encode` on a single string: wrap it in a
one-element list, apply the guard, run the model
(`model : List String → List (List Float)` stands for the loaded
sentence-transformer), and return `embeddings[0]`. -/
def encode (model : List String → List (List Float)) (text : String) :
    List Float :=
  (model [valid_text text]).headD []

/-- `EmbeddingService.encode_dataset_metadata`: `text_parts = [title,
title]`, append the description when it is truthy, join with spaces,
encode. -/
def encode_dataset_metadata (model : List String → List (List Float))
    (title : String) (description : Option String) : List Float :=
  let text_parts := [title, title]
  let text_parts :=
    match description with
    | some d => if d == "" then text_parts else text_parts ++ [d]
    | none => text_parts
  encode model (joinSpace text_parts)

end EmbeddingService

/-- A record is past the configured cutoff `T` (shorthand for the
client's own age test with the cutoff present). -/
def staleAt (T now : Int) (d : HFDatasetDTO) : Bool :=
  HuggingFaceClient.is_dataset_too_old d (some T) now

/-- A record is still fresh with respect to the cutoff `T`. -/
def freshAt (T now : Int) (d : HFDatasetDTO) : Bool :=
  !staleAt T now d

/-- A fully-parsing paginated source: every item of every page arrives
as a valid DTO. -/
def rawPages (pages : List (List HFDatasetDTO)) : List (List RawItem) :=
  pages.map (fun p => p.map (fun d => some d))

/-! ## Concrete fixtures (inputs used by witnesses and counterexamples) -/

/-- A minimal incoming dataset, as a seed job would produce it. -/
def sampleDataset : Dataset where
  source_name := "huggingface"
  external_id := "e1"
  title := "T"
  url := "u"
  description := none
  tags := none
  license := none
  file_formats := none
  total_size_bytes := none
  column_names := none
  row_count := none
  download_count := 0
  view_count := 0
  like_count := 0
  source_created_at := none
  source_updated_at := none
  embedding := none
  static_score := none
  is_active := true
  enrichment_status := "minimal"
  enrichment_attempts := 0
  last_enrichment_error := none
  last_enriched_at := none
  last_checked_at := none
  source_meta := none

/-- A second write to the same natural key with different values. -/
def sampleDataset2 : Dataset :=
  { sampleDataset with
    title := "T2"
    enrichment_status := "pending"
    enrichment_attempts := 7
    last_enrichment_error := some ("old failure")
    last_checked_at := some 9 }

/-- A persisted row for the sample dataset. -/
def sampleRow : DatasetRow where
  toDataset := sampleDataset
  id := 1
  created_at := 0
  updated_at := 0

/-- A HuggingFace DTO fixture whose `lastModified` is `t`. -/
def hfDto (t : Int) : HFDatasetDTO where
  id := "owner/data"
  last_modified := some t
  created_at := none
  tags := []
  card_license := none

/-! ## Theorems -/

/-- The tag-scan loop computes exactly "the part after `license:` of the
first tag having that prefix". -/
theorem tagLicense_eq_find (ts : List String) :
    tagLicense ts =
      (ts.find? (fun t => t.startsWith ("license:"))).map (fun t => t.drop 8) := by
  induction ts with
  | nil => rfl
  | cons t rest ih =>
    by_cases h : t.startsWith ("license:")
    · simp [tagLicense, List.find?, h]
    · simp [tagLicense, List.find?, h, ih]

/-- C7: `_filter_by_date` always keeps a record whose activity date is
missing, never keeps a record whose activity date is strictly earlier
than the configured minimum, and is the identity when no minimum date
is configured. -/
theorem filter_by_date_spec (df : List KaggleCsvRow) (m : Int) :
    (∀ r ∈ df, r.LastActivityDate = none →
      r ∈ MetaKaggleParser.filter_by_date df (some m)) ∧
    (∀ r ∈ MetaKaggleParser.filter_by_date df (some m),
      ∀ d, r.LastActivityDate = some d → m ≤ d) ∧
    MetaKaggleParser.filter_by_date df none = df := by
  refine ⟨?_, ?_, rfl⟩
  · intro r hr hnone
    simp only [MetaKaggleParser.filter_by_date, List.mem_filter]
    exact ⟨hr, by simp [hnone]⟩
  · intro r hr d hd
    simp only [MetaKaggleParser.filter_by_date, List.mem_filter] at hr
    have hp := hr.2
    rw [hd] at hp
    simpa using hp

/-- Witness for C7: a row with a missing activity date survives the
filter at a concrete input. -/
theorem filter_by_date_spec_witness :
    (⟨1, none, none⟩ : KaggleCsvRow) ∈
      MetaKaggleParser.filter_by_date [⟨1, none, none⟩] (some 5) :=
  (filter_by_date_spec [⟨1, none, none⟩] 5).1 _ (by simp) rfl

/-- C8: the derived license of a raw HuggingFace record is the first
element of the structured license field when that field is a non-empty
list, the string itself when it is a string, and otherwise the part
after `license:` of the first tag carrying that prefix (absent when no
tag does). -/
theorem hf_license_spec :
    (∀ (d : HFDatasetDTO) (x : String) (xs : List String),
      d.card_license = some (.lList (x :: xs)) → d.license = some x) ∧
    (∀ (d : HFDatasetDTO) (s : String),
      d.card_license = some (.lStr s) → d.license = some s) ∧
    (∀ d : HFDatasetDTO,
      (∀ s, d.card_license ≠ some (.lStr s)) →
      (∀ x xs, d.card_license ≠ some (.lList (x :: xs))) →
      d.license =
        (d.tags.find? (fun t => t.startsWith ("license:"))).map
          (fun t => t.drop 8)) := by
  refine ⟨?_, ?_, ?_⟩
  · intro d x xs h
    simp [HFDatasetDTO.license, h]
  · intro d s h
    simp [HFDatasetDTO.license, h]
  · intro d h1 h2
    rw [← tagLicense_eq_find]
    match hc : d.card_license with
    | none => simp [HFDatasetDTO.license, hc]
    | some .lOther => simp [HFDatasetDTO.license, hc]
    | some (.lList []) => simp [HFDatasetDTO.license, hc]
    | some (.lList (x :: xs)) => exact absurd hc (h2 x xs)
    | some (.lStr s) => exact absurd hc (h1 s)

/-- Witness for C8: at a concrete record whose card data holds the list
`["mit"]`, the derived license is `"mit"`. -/
theorem hf_license_spec_witness :
    HFDatasetDTO.license ⟨"u/d", none, none, [], some (.lList ["mit"])⟩ =
      some ("mit") :=
  hf_license_spec.1 ⟨"u/d", none, none, [], some (.lList ["mit"])⟩ "mit" [] rfl

/-- C9: `encode_dataset_metadata` encodes the single space-joined string
"title title description" when the description is non-empty, and
"title title" when the description is absent or empty. -/
theorem encode_dataset_metadata_spec (model : List String → List (List Float))
    (title desc : String) (hd : desc ≠ "") :
    EmbeddingService.encode_dataset_metadata model title (some desc) =
      EmbeddingService.encode model (title ++ " " ++ title ++ " " ++ desc) ∧
    EmbeddingService.encode_dataset_metadata model title none =
      EmbeddingService.encode model (title ++ " " ++ title) ∧
    EmbeddingService.encode_dataset_metadata model title (some "") =
      EmbeddingService.encode model (title ++ " " ++ title) := by
  refine ⟨?_, ?_, ?_⟩
  · simp only [EmbeddingService.encode_dataset_metadata,
      EmbeddingService.joinSpace]
    rw [if_neg (by simpa using hd)]
    simp [EmbeddingService.joinSpace, String.append_assoc]
  · rfl
  · simp [EmbeddingService.encode_dataset_metadata,
      EmbeddingService.joinSpace]

/-! ### database helper lemmas -/

/-- Unfolding of the natural-key match. -/
theorem keyMatches_eq_true {d : Dataset} {r : DatasetRow} :
    keyMatches d r = true ↔
      r.source_name = d.source_name ∧ r.external_id = d.external_id := by
  simp [keyMatches]

/-- The single-record conflict update does not touch the natural key. -/
theorem applyUpsertSet_keys (d : Dataset) (now : Int) (r : DatasetRow) :
    (applyUpsertSet d now r).source_name = r.source_name ∧
      (applyUpsertSet d now r).external_id = r.external_id :=
  ⟨rfl, rfl⟩

/-- The bulk conflict update does not touch the natural key. -/
theorem applyBulkSet_keys (d : Dataset) (now : Int) (r : DatasetRow) :
    (applyBulkSet d now r).source_name = r.source_name ∧
      (applyBulkSet d now r).external_id = r.external_id :=
  ⟨rfl, rfl⟩

/-- A conditional per-row update with key-preserving action preserves
the natural key of every row. -/
theorem condUpdate_keys {upd : DatasetRow → DatasetRow}
    (hkeys : ∀ x, (upd x).source_name = x.source_name ∧
      (upd x).external_id = x.external_id)
    (d : Dataset) (x : DatasetRow) :
    (if keyMatches d x then upd x else x).source_name = x.source_name ∧
      (if keyMatches d x then upd x else x).external_id = x.external_id := by
  by_cases h : keyMatches d x
  · rw [if_pos h]; exact hkeys x
  · rw [if_neg h]; exact ⟨rfl, rfl⟩

/-- Mapping a key-preserving conditional update over the table keeps
the unique index intact. -/
theorem keyUnique_condMap {upd : DatasetRow → DatasetRow}
    (hkeys : ∀ x, (upd x).source_name = x.source_name ∧
      (upd x).external_id = x.external_id)
    (d : Dataset) {db : Db} (hu : KeyUnique db) :
    KeyUnique (db.map (fun r => if keyMatches d r then upd r else r)) := by
  rw [KeyUnique, List.pairwise_map]
  refine List.Pairwise.imp ?_ hu
  intro a b hab h
  apply hab
  have ha := condUpdate_keys hkeys d a
  have hb := condUpdate_keys hkeys d b
  exact ⟨by rw [← ha.1, ← hb.1]; exact h.1, by rw [← ha.2, ← hb.2]; exact h.2⟩

/-- Appending a row whose key is absent from the table keeps the unique
index intact. -/
theorem keyUnique_append {db : Db} (d : Dataset) (i : Nat) (t : Int)
    (hu : KeyUnique db) (habs : db.any (keyMatches d) = false) :
    KeyUnique (db ++ [insertRow d i t]) := by
  rw [KeyUnique, List.pairwise_append]
  refine ⟨hu, List.pairwise_singleton _ _, ?_⟩
  intro a ha b hb
  rw [List.mem_singleton] at hb
  subst hb
  intro hcon
  have : keyMatches d a = true :=
    keyMatches_eq_true.mpr ⟨hcon.1, hcon.2⟩
  have := List.any_eq_true.mpr ⟨a, ha, this⟩
  rw [habs] at this
  exact absurd this (by simp)

/-- `upsert` preserves the unique natural-key index. -/
theorem keyUnique_upsert (db : Db) (d : Dataset) (i : Nat) (t : Int)
    (hu : KeyUnique db) : KeyUnique (DatasetRepository.upsert db d i t) := by
  unfold DatasetRepository.upsert
  by_cases h : db.any (keyMatches d)
  · rw [if_pos h]
    exact keyUnique_condMap (applyUpsertSet_keys d t) d hu
  · rw [if_neg h]
    exact keyUnique_append d i t hu (Bool.eq_false_iff.mpr h)

/-- One `bulk_upsert` row preserves the unique natural-key index. -/
theorem keyUnique_bulkStep (db : Db) (d : Dataset) (i : Nat) (t : Int)
    (hu : KeyUnique db) : KeyUnique (DatasetRepository.bulkStep db d i t) := by
  unfold DatasetRepository.bulkStep
  by_cases h : db.any (keyMatches d)
  · rw [if_pos h]
    exact keyUnique_condMap (applyBulkSet_keys d t) d hu
  · rw [if_neg h]
    exact keyUnique_append d i t hu (Bool.eq_false_iff.mpr h)

/-- `bulk_upsert` preserves the unique natural-key index. -/
theorem keyUnique_bulk_upsert (ds : List Dataset) :
    ∀ (db : Db) (baseId : Nat) (now : Int), KeyUnique db →
      KeyUnique (DatasetRepository.bulk_upsert db ds baseId now) := by
  induction ds with
  | nil => intro db baseId now hu; exact hu
  | cons d rest ih =>
    intro db baseId now hu
    exact ih _ _ now (keyUnique_bulkStep db d baseId now hu)

/-- In a key-unique table, looking up the key of a member row finds
exactly that row. -/
theorem findByKey_of_mem (sn eid : String) (r : DatasetRow)
    (hsn : r.source_name = sn) (heid : r.external_id = eid) :
    ∀ db : Db, KeyUnique db → r ∈ db → findByKey db sn eid = some r := by
  intro db
  induction db with
  | nil => intro _ h; cases h
  | cons a rest ih =>
    intro hu hr
    rw [KeyUnique, List.pairwise_cons] at hu
    by_cases hpa : (a.source_name == sn && a.external_id == eid) = true
    · rcases List.mem_cons.mp hr with rfl | hmem
      · simp [findByKey, List.find?_cons, hpa]
      · exfalso
        have hk := hpa
        simp only [Bool.and_eq_true, beq_iff_eq] at hk
        exact hu.1 r hmem ⟨hk.1.trans hsn.symm, hk.2.trans heid.symm⟩
    · rcases List.mem_cons.mp hr with rfl | hmem
      · exact absurd (by simp [hsn, heid]) hpa
      · have : findByKey (a :: rest) sn eid = findByKey rest sn eid := by
          simp only [findByKey, List.find?_cons]
          rw [Bool.eq_false_iff.mpr hpa]
        rw [this]
        exact ih hu.2 hmem

/-- In a key-unique table, a member row's key is carried by exactly one
row. -/
theorem countKey_of_mem (sn eid : String) (r : DatasetRow)
    (hsn : r.source_name = sn) (heid : r.external_id = eid) :
    ∀ db : Db, KeyUnique db → r ∈ db → countKey db sn eid = 1 := by
  intro db
  induction db with
  | nil => intro _ h; cases h
  | cons a rest ih =>
    intro hu hr
    rw [KeyUnique, List.pairwise_cons] at hu
    by_cases hpa : (a.source_name == sn && a.external_id == eid) = true
    · have hrest : countKey rest sn eid = 0 := by
        rw [countKey, List.length_eq_zero, List.filter_eq_nil_iff]
        intro b hb hpb
        simp only [Bool.and_eq_true, beq_iff_eq] at hpa hpb
        exact hu.1 b hb ⟨hpa.1.trans hpb.1.symm, hpa.2.trans hpb.2.symm⟩
      simp only [countKey, List.filter_cons, hpa, if_true, List.length_cons]
      rw [show (List.filter (fun x =>
        x.source_name == sn && x.external_id == eid) rest).length =
          countKey rest sn eid from rfl, hrest]
    · rcases List.mem_cons.mp hr with rfl | hmem
      · exact absurd (by simp [hsn, heid]) hpa
      · have : countKey (a :: rest) sn eid = countKey rest sn eid := by
          simp only [countKey, List.filter_cons]
          rw [Bool.eq_false_iff.mpr hpa]
          simp
        rw [this]
        exact ih hu.2 hmem

/-- After any `upsert`, some row carries the upserted natural key. -/
theorem upsert_has_key (db : Db) (d : Dataset) (i : Nat) (t : Int) :
    ∃ r ∈ DatasetRepository.upsert db d i t,
      r.source_name = d.source_name ∧ r.external_id = d.external_id := by
  unfold DatasetRepository.upsert
  by_cases h : db.any (keyMatches d)
  · rw [if_pos h]
    rcases List.any_eq_true.mp h with ⟨r0, hr0, hk⟩
    refine ⟨_, List.mem_map.mpr ⟨r0, hr0, rfl⟩, ?_⟩
    rw [if_pos hk]
    have hk' := keyMatches_eq_true.mp hk
    exact ⟨hk'.1, hk'.2⟩
  · rw [if_neg h]
    exact ⟨insertRow d i t, by simp, rfl, rfl⟩

/-- Witness for C9 at a concrete title, description and model. -/
theorem encode_dataset_metadata_spec_witness :
    EmbeddingService.encode_dataset_metadata (fun _ => [[1.0]]) ("Titanic")
        (some ("Survival data")) =
      EmbeddingService.encode (fun _ => [[1.0]])
        ("Titanic" ++ " " ++ "Titanic" ++ " " ++ "Survival data") :=
  (encode_dataset_metadata_spec (fun _ => [[1.0]]) ("Titanic")
    ("Survival data") (by decide)).1

/-- `upsert` on a present key takes the conflict branch. -/
theorem upsert_eq_conflict (db : Db) (d : Dataset) (i : Nat) (t : Int)
    (h : db.any (keyMatches d) = true) :
    DatasetRepository.upsert db d i t =
      db.map (fun r => if keyMatches d r then applyUpsertSet d t r else r) := by
  unfold DatasetRepository.upsert
  rw [if_pos h]

/-- On a key conflict, `upsert` rewrites exactly the matching row with
the single-record `set_` clause. -/
theorem upsert_conflict_find (db : Db) (d : Dataset) (i : Nat) (t : Int)
    (r : DatasetRow) (hu : KeyUnique db) (hr : r ∈ db)
    (hk : keyMatches d r = true) :
    findByKey (DatasetRepository.upsert db d i t) d.source_name d.external_id =
      some (applyUpsertSet d t r) := by
  have hany : db.any (keyMatches d) = true := List.any_eq_true.mpr ⟨r, hr, hk⟩
  unfold DatasetRepository.upsert
  rw [if_pos hany]
  have hmem : applyUpsertSet d t r ∈
      db.map (fun x => if keyMatches d x then applyUpsertSet d t x else x) :=
    List.mem_map.mpr ⟨r, hr, by rw [if_pos hk]⟩
  exact findByKey_of_mem d.source_name d.external_id (applyUpsertSet d t r)
    (keyMatches_eq_true.mp hk).1 (keyMatches_eq_true.mp hk).2 _
    (keyUnique_condMap (applyUpsertSet_keys d t) d hu) hmem

/-- On a key conflict, one `bulk_upsert` row rewrites exactly the
matching row with the bulk `set_` clause. -/
theorem bulkStep_conflict_find (db : Db) (d : Dataset) (i : Nat) (t : Int)
    (r : DatasetRow) (hu : KeyUnique db) (hr : r ∈ db)
    (hk : keyMatches d r = true) :
    findByKey (DatasetRepository.bulkStep db d i t) d.source_name d.external_id =
      some (applyBulkSet d t r) := by
  have hany : db.any (keyMatches d) = true := List.any_eq_true.mpr ⟨r, hr, hk⟩
  unfold DatasetRepository.bulkStep
  rw [if_pos hany]
  have hmem : applyBulkSet d t r ∈
      db.map (fun x => if keyMatches d x then applyBulkSet d t x else x) :=
    List.mem_map.mpr ⟨r, hr, by rw [if_pos hk]⟩
  exact findByKey_of_mem d.source_name d.external_id (applyBulkSet d t r)
    (keyMatches_eq_true.mp hk).1 (keyMatches_eq_true.mp hk).2 _
    (keyUnique_condMap (applyBulkSet_keys d t) d hu) hmem

/-- C10: on the single-record `upsert` path, a conflicting write takes
the incoming `enrichment_status`, `embedding`, `static_score`,
`is_active` and `last_enriched_at`, while the existing row keeps its
`enrichment_attempts`, `last_enrichment_error` and `last_checked_at`. -/
theorem upsert_single_frame (db : Db) (d : Dataset) (newId : Nat) (now : Int)
    (r : DatasetRow) (hu : KeyUnique db) (hr : r ∈ db)
    (hsn : r.source_name = d.source_name)
    (heid : r.external_id = d.external_id) :
    ∃ r', findByKey (DatasetRepository.upsert db d newId now)
        d.source_name d.external_id = some r' ∧
      r'.enrichment_status = d.enrichment_status ∧
      r'.embedding = d.embedding ∧
      r'.static_score = d.static_score ∧
      r'.is_active = d.is_active ∧
      r'.last_enriched_at = d.last_enriched_at ∧
      r'.enrichment_attempts = r.enrichment_attempts ∧
      r'.last_enrichment_error = r.last_enrichment_error ∧
      r'.last_checked_at = r.last_checked_at :=
  ⟨applyUpsertSet d now r,
    upsert_conflict_find db d newId now r hu hr
      (keyMatches_eq_true.mpr ⟨hsn, heid⟩),
    rfl, rfl, rfl, rfl, rfl, rfl, rfl, rfl⟩

/-- Witness for C10: the second write keeps the stored row's attempt
counter and error while taking the incoming status. -/
theorem upsert_single_frame_witness :
    ∃ r', findByKey (DatasetRepository.upsert [sampleRow] sampleDataset2 2 5)
        sampleDataset2.source_name sampleDataset2.external_id = some r' ∧
      r'.enrichment_status = sampleDataset2.enrichment_status ∧
      r'.embedding = sampleDataset2.embedding ∧
      r'.static_score = sampleDataset2.static_score ∧
      r'.is_active = sampleDataset2.is_active ∧
      r'.last_enriched_at = sampleDataset2.last_enriched_at ∧
      r'.enrichment_attempts = sampleRow.enrichment_attempts ∧
      r'.last_enrichment_error = sampleRow.last_enrichment_error ∧
      r'.last_checked_at = sampleRow.last_checked_at :=
  upsert_single_frame [sampleRow] sampleDataset2 2 5 sampleRow
    (by simp [KeyUnique]) (by simp) rfl rfl

/-- One `bulk_upsert` row leaves, for every stored row, a row with the
same key whose status-machine fields are untouched. -/
theorem bulkStep_frame (db : Db) (d : Dataset) (i : Nat) (t : Int)
    (r : DatasetRow) (hr : r ∈ db) :
    ∃ r' ∈ DatasetRepository.bulkStep db d i t,
      r'.source_name = r.source_name ∧ r'.external_id = r.external_id ∧
      r'.enrichment_attempts = r.enrichment_attempts ∧
      r'.last_enrichment_error = r.last_enrichment_error ∧
      r'.embedding = r.embedding ∧ r'.static_score = r.static_score ∧
      r'.enrichment_status = r.enrichment_status ∧
      r'.last_enriched_at = r.last_enriched_at ∧
      r'.last_checked_at = r.last_checked_at := by
  unfold DatasetRepository.bulkStep
  by_cases h : db.any (keyMatches d)
  · rw [if_pos h]
    refine ⟨_, List.mem_map.mpr ⟨r, hr, rfl⟩, ?_⟩
    by_cases hk : keyMatches d r
    · rw [if_pos hk]
      exact ⟨rfl, rfl, rfl, rfl, rfl, rfl, rfl, rfl, rfl⟩
    · rw [if_neg hk]
      exact ⟨rfl, rfl, rfl, rfl, rfl, rfl, rfl, rfl, rfl⟩
  · rw [if_neg h]
    exact ⟨r, List.mem_append_left _ hr,
      rfl, rfl, rfl, rfl, rfl, rfl, rfl, rfl, rfl⟩

/-- The whole `bulk_upsert` fold leaves, for every stored row, a row
with the same key whose status-machine fields are untouched. -/
theorem bulk_upsert_frame_aux (now : Int) :
    ∀ (ds : List Dataset) (baseId : Nat) (db : Db) (r : DatasetRow), r ∈ db →
      ∃ r' ∈ DatasetRepository.bulk_upsert db ds baseId now,
        r'.source_name = r.source_name ∧ r'.external_id = r.external_id ∧
        r'.enrichment_attempts = r.enrichment_attempts ∧
        r'.last_enrichment_error = r.last_enrichment_error ∧
        r'.embedding = r.embedding ∧ r'.static_score = r.static_score ∧
        r'.enrichment_status = r.enrichment_status ∧
        r'.last_enriched_at = r.last_enriched_at ∧
        r'.last_checked_at = r.last_checked_at := by
  intro ds
  induction ds with
  | nil =>
    intro baseId db r hr
    exact ⟨r, hr, rfl, rfl, rfl, rfl, rfl, rfl, rfl, rfl, rfl⟩
  | cons d rest ih =>
    intro baseId db r hr
    obtain ⟨r1, hm1, a1, b1, c1, e1, f1, g1, p1, q1, s1⟩ :=
      bulkStep_frame db d baseId now r hr
    obtain ⟨r2, hm2, a2, b2, c2, e2, f2, g2, p2, q2, s2⟩ :=
      ih (baseId + 1) _ r1 hm1
    exact ⟨r2, hm2, a2.trans a1, b2.trans b1, c2.trans c1, e2.trans e1,
      f2.trans f1, g2.trans g1, p2.trans p1, q2.trans q1, s2.trans s1⟩

/-- C6: `bulk_upsert` never overwrites a stored row's
`enrichment_attempts` or `last_enrichment_error` (nor its embedding,
static score, status or enrichment timestamps); on a conflict it
rewrites the descriptive fields from the incoming record and bumps
`updated_at`. -/
theorem bulk_upsert_spec (db : Db) (ds : List Dataset) (baseId : Nat)
    (now : Int) (_hds : ds ≠ []) (hu : KeyUnique db) :
    (∀ r ∈ db, ∃ r',
      findByKey (DatasetRepository.bulk_upsert db ds baseId now)
        r.source_name r.external_id = some r' ∧
      r'.enrichment_attempts = r.enrichment_attempts ∧
      r'.last_enrichment_error = r.last_enrichment_error ∧
      r'.embedding = r.embedding ∧
      r'.static_score = r.static_score ∧
      r'.enrichment_status = r.enrichment_status ∧
      r'.last_enriched_at = r.last_enriched_at ∧
      r'.last_checked_at = r.last_checked_at) ∧
    (∀ r ∈ db, ∀ d : Dataset,
      r.source_name = d.source_name → r.external_id = d.external_id →
      ∃ r', findByKey (DatasetRepository.bulk_upsert db [d] baseId now)
          d.source_name d.external_id = some r' ∧
        r'.title = d.title ∧ r'.url = d.url ∧
        r'.description = d.description ∧ r'.tags = d.tags ∧
        r'.license = d.license ∧ r'.file_formats = d.file_formats ∧
        r'.total_size_bytes = d.total_size_bytes ∧
        r'.column_names = d.column_names ∧ r'.row_count = d.row_count ∧
        r'.download_count = d.download_count ∧
        r'.view_count = d.view_count ∧ r'.like_count = d.like_count ∧
        r'.source_created_at = d.source_created_at ∧
        r'.source_updated_at = d.source_updated_at ∧
        r'.is_active = d.is_active ∧ r'.source_meta = d.source_meta ∧
        r'.updated_at = now ∧
        r'.enrichment_attempts = r.enrichment_attempts ∧
        r'.last_enrichment_error = r.last_enrichment_error) := by
  constructor
  · intro r hr
    obtain ⟨r', hm, hsn, heid, hc, he, hf, hg, hp, hq, hs⟩ :=
      bulk_upsert_frame_aux now ds baseId db r hr
    refine ⟨r', ?_, hc, he, hf, hg, hp, hq, hs⟩
    exact findByKey_of_mem r.source_name r.external_id r' hsn heid _
      (keyUnique_bulk_upsert ds db baseId now hu) hm
  · intro r hr d hsn heid
    have hfind := bulkStep_conflict_find db d baseId now r hu hr
      (keyMatches_eq_true.mpr ⟨hsn, heid⟩)
    exact ⟨applyBulkSet d now r, hfind, rfl, rfl, rfl, rfl, rfl, rfl, rfl,
      rfl, rfl, rfl, rfl, rfl, rfl, rfl, rfl, rfl, rfl, rfl, rfl⟩

/-- Witness for C6: after a conflicting one-row bulk upsert, the stored
attempt counter and error survive. -/
theorem bulk_upsert_spec_witness :
    ∃ r', findByKey
        (DatasetRepository.bulk_upsert [sampleRow] [sampleDataset2] 2 5)
        sampleRow.source_name sampleRow.external_id = some r' ∧
      r'.enrichment_attempts = sampleRow.enrichment_attempts ∧
      r'.last_enrichment_error = sampleRow.last_enrichment_error ∧
      r'.embedding = sampleRow.embedding ∧
      r'.static_score = sampleRow.static_score ∧
      r'.enrichment_status = sampleRow.enrichment_status ∧
      r'.last_enriched_at = sampleRow.last_enriched_at ∧
      r'.last_checked_at = sampleRow.last_checked_at :=
  (bulk_upsert_spec [sampleRow] [sampleDataset2] 2 5 (by simp) (by simp [KeyUnique])).1
    sampleRow (by simp)

/-- C1: two upserts to the same natural key leave exactly one row for
that key; the second upsert changes no row count and the surviving row
carries the second write's values on the whole conflict-update field
set. -/
theorem upsert_idempotent (db : Db) (d1 d2 : Dataset) (i1 i2 : Nat)
    (t1 t2 : Int) (hu : KeyUnique db)
    (hsn : d1.source_name = d2.source_name)
    (heid : d1.external_id = d2.external_id) :
    countKey (DatasetRepository.upsert
        (DatasetRepository.upsert db d1 i1 t1) d2 i2 t2)
      d2.source_name d2.external_id = 1 ∧
    (DatasetRepository.upsert
        (DatasetRepository.upsert db d1 i1 t1) d2 i2 t2).length =
      (DatasetRepository.upsert db d1 i1 t1).length ∧
    ∃ r, findByKey (DatasetRepository.upsert
        (DatasetRepository.upsert db d1 i1 t1) d2 i2 t2)
        d2.source_name d2.external_id = some r ∧
      r.title = d2.title ∧ r.url = d2.url ∧ r.description = d2.description ∧
      r.tags = d2.tags ∧ r.license = d2.license ∧
      r.file_formats = d2.file_formats ∧
      r.total_size_bytes = d2.total_size_bytes ∧
      r.column_names = d2.column_names ∧ r.row_count = d2.row_count ∧
      r.download_count = d2.download_count ∧
      r.view_count = d2.view_count ∧ r.like_count = d2.like_count ∧
      r.source_created_at = d2.source_created_at ∧
      r.source_updated_at = d2.source_updated_at ∧
      r.embedding = d2.embedding ∧ r.static_score = d2.static_score ∧
      r.is_active = d2.is_active ∧
      r.enrichment_status = d2.enrichment_status ∧
      r.last_enriched_at = d2.last_enriched_at ∧
      r.source_meta = d2.source_meta ∧ r.updated_at = t2 := by
  have hu1 := keyUnique_upsert db d1 i1 t1 hu
  obtain ⟨r1, hm1, hk1sn, hk1eid⟩ := upsert_has_key db d1 i1 t1
  have hk : keyMatches d2 r1 = true :=
    keyMatches_eq_true.mpr ⟨hk1sn.trans hsn, hk1eid.trans heid⟩
  have hany : (DatasetRepository.upsert db d1 i1 t1).any (keyMatches d2) = true :=
    List.any_eq_true.mpr ⟨r1, hm1, hk⟩
  have hfind := upsert_conflict_find (DatasetRepository.upsert db d1 i1 t1)
    d2 i2 t2 r1 hu1 hm1 hk
  have hu2 := keyUnique_upsert (DatasetRepository.upsert db d1 i1 t1) d2 i2 t2 hu1
  have hmem2 : applyUpsertSet d2 t2 r1 ∈
      DatasetRepository.upsert (DatasetRepository.upsert db d1 i1 t1) d2 i2 t2 := by
    rw [upsert_eq_conflict _ _ _ _ hany]
    exact List.mem_map.mpr ⟨r1, hm1, by rw [if_pos hk]⟩
  refine ⟨?_, ?_, applyUpsertSet d2 t2 r1, hfind, rfl, rfl, rfl, rfl, rfl,
    rfl, rfl, rfl, rfl, rfl, rfl, rfl, rfl, rfl, rfl, rfl, rfl, rfl, rfl,
    rfl, rfl⟩
  · exact countKey_of_mem d2.source_name d2.external_id
      (applyUpsertSet d2 t2 r1) (keyMatches_eq_true.mp hk).1
      (keyMatches_eq_true.mp hk).2 _ hu2 hmem2
  · rw [upsert_eq_conflict _ _ _ _ hany]
    exact List.length_map _ _

/-- Witness for C1: the double upsert of the sample datasets leaves one
row for the key. -/
theorem upsert_idempotent_witness :
    countKey (DatasetRepository.upsert
        (DatasetRepository.upsert [] sampleDataset 1 0) sampleDataset2 2 5)
      sampleDataset2.source_name sampleDataset2.external_id = 1 :=
  (upsert_idempotent [] sampleDataset sampleDataset2 1 2 0 5
    (by simp [KeyUnique]) rfl rfl).1

/-- `mark_enriching` acts on the row found by id (and on no other
lookup result). -/
theorem findById_mark_enriching (db : Db) (i : Nat) :
    findById (DatasetRepository.mark_enriching db i) i =
      (findById db i).map (fun r =>
        if r.id == i then
          { r with
            enrichment_status := EnrichmentStatus.enriching.value
            enrichment_attempts := r.enrichment_attempts + 1 }
        else r) := by
  unfold findById DatasetRepository.mark_enriching
  rw [List.find?_map]
  have hpred : ((fun r : DatasetRow => r.id == i) ∘ (fun r =>
      if r.id == i then
        { r with
          enrichment_status := EnrichmentStatus.enriching.value
          enrichment_attempts := r.enrichment_attempts + 1 }
      else r)) = fun r : DatasetRow => r.id == i := by
    funext x
    by_cases h : (x.id == i) = true <;> simp [Function.comp, h]
  rw [hpred]

/-- One `mark_enriching` call bumps the found row's attempt counter by
one and moves it to `enriching`. -/
theorem mark_enriching_attempts (db : Db) (i : Nat) (r : DatasetRow)
    (hr : findById db i = some r) :
    ∃ r', findById (DatasetRepository.mark_enriching db i) i = some r' ∧
      r'.enrichment_attempts = r.enrichment_attempts + 1 ∧
      r'.enrichment_status = EnrichmentStatus.enriching.value := by
  have hr' : db.find? (fun x => x.id == i) = some r := hr
  have hp' := List.find?_some hr'
  have hp : (r.id == i) = true := hp'
  rw [findById_mark_enriching, hr]
  refine ⟨_, rfl, ?_, ?_⟩ <;> simp [hp]

/-- Membership is invariant under the sorted insert. -/
theorem mem_insertByCreated {x r : DatasetRow} {l : List DatasetRow} :
    x ∈ DatasetRepository.insertByCreated r l ↔ x = r ∨ x ∈ l := by
  induction l with
  | nil => simp [DatasetRepository.insertByCreated]
  | cons a as ih =>
    simp only [DatasetRepository.insertByCreated]
    by_cases h : r.created_at ≤ a.created_at
    · rw [if_pos h]; simp
    · rw [if_neg h]; simp [ih]; tauto

/-- Membership is invariant under the `created_at` sort. -/
theorem mem_sortByCreatedAsc {x : DatasetRow} {l : List DatasetRow} :
    x ∈ DatasetRepository.sortByCreatedAsc l ↔ x ∈ l := by
  induction l with
  | nil => simp [DatasetRepository.sortByCreatedAsc]
  | cons a as ih => simp [DatasetRepository.sortByCreatedAsc, mem_insertByCreated, ih]

/-- C4: `mark_enriching` called `N` times on a row that starts at zero
attempts leaves `enrichment_attempts = N`; and `get_pending_for_enrichment`
never returns a dataset whose attempts reach the configured ceiling. -/
theorem attempt_bound_spec (db : Db) (i : Nat) (r : DatasetRow) (N : Nat)
    (hr : findById db i = some r) (h0 : r.enrichment_attempts = 0) :
    (∃ r', findById
        ((fun s => DatasetRepository.mark_enriching s i)^[N] db) i = some r' ∧
      r'.enrichment_attempts = N) ∧
    (∀ (db' : Db) (source : String) (limit : Nat) (maxA : Int),
      ∀ x ∈ DatasetRepository.get_pending_for_enrichment db' source limit maxA,
        x.enrichment_attempts < maxA) := by
  constructor
  · have aux : ∀ n : Nat, ∃ r', findById
        ((fun s => DatasetRepository.mark_enriching s i)^[n] db) i = some r' ∧
        r'.enrichment_attempts = r.enrichment_attempts + n := by
      intro n
      induction n with
      | zero => exact ⟨r, by simpa using hr, by simp⟩
      | succ n ihn =>
        obtain ⟨r', hfind, hatt⟩ := ihn
        rw [Function.iterate_succ_apply']
        obtain ⟨r'', h1, h2, _⟩ := mark_enriching_attempts _ i r' hfind
        refine ⟨r'', h1, ?_⟩
        rw [h2, hatt]
        push_cast
        ring
    obtain ⟨r', h1, h2⟩ := aux N
    exact ⟨r', h1, by rw [h2, h0]; simp⟩
  · intro db' source limit maxA x hx
    have hx2 := mem_sortByCreatedAsc.mp (List.mem_of_mem_take hx)
    have hx3 := List.mem_filter.mp hx2
    have hp := hx3.2
    simp only [DatasetRepository.matchesPending, Bool.and_eq_true,
      decide_eq_true_eq] at hp
    exact hp.1.2

/-- Witness for C4: two `mark_enriching` calls on the sample row leave
an attempt counter of two. -/
theorem attempt_bound_spec_witness :
    ∃ r', findById
        ((fun s => DatasetRepository.mark_enriching s 1)^[2] [sampleRow]) 1 =
      some r' ∧ r'.enrichment_attempts = 2 :=
  (attempt_bound_spec [sampleRow] 1 sampleRow 2 rfl rfl).1

/-- `mark_failed` acts on the row found by id. -/
theorem findById_mark_failed (db : Db) (i : Nat) (msg : String) :
    findById (DatasetRepository.mark_failed db i msg) i =
      (findById db i).map (fun r =>
        if r.id == i then
          { r with
            enrichment_status := EnrichmentStatus.failed.value
            last_enrichment_error := some msg
            is_active := false }
        else r) := by
  unfold findById DatasetRepository.mark_failed
  rw [List.find?_map]
  have hpred : ((fun r : DatasetRow => r.id == i) ∘ (fun r =>
      if r.id == i then
        { r with
          enrichment_status := EnrichmentStatus.failed.value
          last_enrichment_error := some msg
          is_active := false }
      else r)) = fun r : DatasetRow => r.id == i := by
    funext x
    by_cases h : (x.id == i) = true <;> simp [Function.comp, h]
  rw [hpred]

/-- After `mark_failed db i msg`, every still-active row has a
different id. -/
theorem mark_failed_active_id (db : Db) (i : Nat) (msg : String)
    (x : DatasetRow) (hx : x ∈ DatasetRepository.mark_failed db i msg)
    (hact : x.is_active = true) : x.id ≠ i := by
  rcases List.mem_map.mp hx with ⟨y, hy, hgy⟩
  by_cases h : (y.id == i) = true
  · exfalso
    rw [← hgy, if_pos h] at hact
    simp at hact
  · rw [← hgy, if_neg h]
    simpa using h

/-- C5: after `mark_failed(id, message)` the dataset is `failed`,
carries the message, is inactive, and is absent from both pending-work
query results. -/
theorem mark_failed_spec (db : Db) (i : Nat) (msg : String) (r : DatasetRow)
    (hr : findById db i = some r) :
    (∃ r', findById (DatasetRepository.mark_failed db i msg) i = some r' ∧
      r'.enrichment_status = EnrichmentStatus.failed.value ∧
      r'.last_enrichment_error = some msg ∧
      r'.is_active = false) ∧
    (∀ (source : String) (limit : Nat) (maxA : Int),
      ∀ x ∈ DatasetRepository.get_pending_for_enrichment
        (DatasetRepository.mark_failed db i msg) source limit maxA,
        x.id ≠ i) ∧
    (∀ limit : Nat,
      ∀ x ∈ DatasetRepository.get_for_embedding_generation
        (DatasetRepository.mark_failed db i msg) limit, x.id ≠ i) := by
  refine ⟨?_, ?_, ?_⟩
  · have hr' : db.find? (fun x => x.id == i) = some r := hr
    have hp' := List.find?_some hr'
    have hp : (r.id == i) = true := hp'
    rw [findById_mark_failed, hr]
    refine ⟨_, rfl, ?_, ?_, ?_⟩ <;> simp [hp]
  · intro source limit maxA x hx
    have hx2 := mem_sortByCreatedAsc.mp (List.mem_of_mem_take hx)
    have hx3 := List.mem_filter.mp hx2
    have hact : x.is_active = true := by
      have hp := hx3.2
      simp only [DatasetRepository.matchesPending, Bool.and_eq_true] at hp
      exact hp.2
    exact mark_failed_active_id db i msg x hx3.1 hact
  · intro limit x hx
    have hx3 := List.mem_filter.mp (List.mem_of_mem_take hx)
    have hact : x.is_active = true := by
      have hp := hx3.2
      simp only [DatasetRepository.matchesEmbedding, Bool.and_eq_true] at hp
      exact hp.2
    exact mark_failed_active_id db i msg x hx3.1 hact

/-- C3: how `_fetch_page`'s retry decorator actually classifies
failures, evaluated at concrete failing inputs.  The tenacity predicate
`retry_if_exception_type((ConnectError, TimeoutException,
HTTPStatusError))` retries **every** HTTP status error: a page whose
every attempt returns 404 is requested five times before
`_fetch_single_batch` turns it into a clean end-of-data, and a 401
(auth error) is also requested five times before propagating — where
the specification requires a single attempt for both, with only
connect errors, timeouts and 5xx retried. -/
theorem retry_classification_eval :
    HuggingFaceClient.isRetryableError (.httpStatusError 404) = true ∧
    HuggingFaceClient.isRetryableError (.httpStatusError 401) = true ∧
    HuggingFaceClient.isRetryableError .connectError = true ∧
    HuggingFaceClient.isRetryableError .timeoutError = true ∧
    HuggingFaceClient.fetch_single_batch
        (fun _ => .error (.httpStatusError 404)) = (.ok none, 5) ∧
    HuggingFaceClient.fetch_single_batch
        (fun _ => .error (.httpStatusError 401)) =
      (.error (.httpStatusError 401), 5) ∧
    HuggingFaceClient.fetch_single_batch
        (fun _ => .error (.httpStatusError 500)) =
      (.error (.httpStatusError 500), 5) ∧
    HuggingFaceClient.fetch_single_batch (fun _ => .error .connectError) =
      (.error .connectError, 5) ∧
    HuggingFaceClient.fetch_single_batch
        (fun i => if i == 0 then .error .timeoutError else .ok []) =
      (.ok (some []), 2) :=
  ⟨rfl, rfl, rfl, rfl, rfl, rfl, rfl, rfl, rfl⟩

/-! ### cutoff correctness of the incremental fetcher -/

/-- `takeWhile` over an append stops inside the left part when some
left element fails the predicate. -/
theorem takeWhile_append_of_any {α : Type} (f : α → Bool) (q : List α) :
    ∀ p : List α, p.any (fun d => !(f d)) = true →
      (p ++ q).takeWhile f = p.takeWhile f := by
  intro p
  induction p with
  | nil => intro h; simp at h
  | cons a rest ih =>
    intro h
    by_cases hf : f a
    · have hrest : rest.any (fun d => !(f d)) = true := by
        simpa [hf] using h
      simp [List.takeWhile_cons, hf, ih hrest]
    · simp [List.takeWhile_cons, hf]

/-- `takeWhile` over an append passes the whole left part when every
left element satisfies the predicate. -/
theorem takeWhile_append_of_all {α : Type} (f : α → Bool) (q : List α) :
    ∀ p : List α, p.all f = true → (p ++ q).takeWhile f = p ++ q.takeWhile f := by
  intro p
  induction p with
  | nil => intro _; simp
  | cons a rest ih =>
    intro h
    rw [List.all_cons, Bool.and_eq_true] at h
    simp [List.takeWhile_cons, h.1, ih h.2]

/-- `takeWhile` is the identity on a list all of whose elements satisfy
the predicate. -/
theorem takeWhile_eq_self_of_all {α : Type} (f : α → Bool) :
    ∀ p : List α, p.all f = true → p.takeWhile f = p := by
  intro p
  induction p with
  | nil => intro _; rfl
  | cons a rest ih =>
    intro h
    rw [List.all_cons, Bool.and_eq_true] at h
    simp [List.takeWhile_cons, h.1, ih h.2]

/-- `takeWhile` is strictly shorter than a list containing an element
that fails the predicate. -/
theorem length_takeWhile_lt_of_any {α : Type} (f : α → Bool) :
    ∀ p : List α, p.any (fun d => !(f d)) = true →
      (p.takeWhile f).length < p.length := by
  intro p
  induction p with
  | nil => intro h; simp at h
  | cons a rest ih =>
    intro h
    by_cases hf : f a
    · have hrest : rest.any (fun d => !(f d)) = true := by
        simpa [hf] using h
      simpa [List.takeWhile_cons, hf] using ih hrest
    · simp [List.takeWhile_cons, hf]

/-- Flattening the conditional single-batch yield gives the batch. -/
theorem flatten_if_isEmpty (l : List HFDatasetDTO) :
    (if l.isEmpty then ([] : List (List HFDatasetDTO)) else [l]).flatten = l := by
  by_cases h : l.isEmpty
  · rw [if_pos h]
    rw [List.isEmpty_iff] at h
    simp [h]
  · rw [if_neg h]
    simp

/-- On a fully-parsing page, `_process_raw_batch` collects exactly the
fresh prefix and reports whether any record was past the cutoff. -/
theorem process_raw_batch_rawPages (T now : Int) :
    ∀ p : List HFDatasetDTO,
      HuggingFaceClient.process_raw_batch now (some T) (p.map (fun d => some d)) =
        (p.takeWhile (freshAt T now), p.any (staleAt T now)) := by
  intro p
  induction p with
  | nil => rfl
  | cons d rest ih =>
    by_cases h : HuggingFaceClient.is_dataset_too_old d (some T) now
    · simp [HuggingFaceClient.process_raw_batch, List.takeWhile_cons,
        List.any_cons, freshAt, staleAt, h]
    · simp [HuggingFaceClient.process_raw_batch, List.takeWhile_cons,
        List.any_cons, freshAt, staleAt, h, ih]

/-- Every record `_process_raw_batch` collects is at or after the
cutoff (for any raw page, valid or not). -/
theorem process_raw_batch_fresh (T now : Int) :
    ∀ (raw : List RawItem) (d : HFDatasetDTO),
      d ∈ (HuggingFaceClient.process_raw_batch now (some T) raw).1 →
      T ≤ d.get_update_time now := by
  intro raw
  induction raw with
  | nil => intro d h; simp [HuggingFaceClient.process_raw_batch] at h
  | cons it rest ih =>
    intro d h
    cases it with
    | none =>
      exact ih d (by simpa [HuggingFaceClient.process_raw_batch] using h)
    | some dto =>
      by_cases hold : HuggingFaceClient.is_dataset_too_old dto (some T) now
      · simp [HuggingFaceClient.process_raw_batch, hold] at h
      · simp [HuggingFaceClient.process_raw_batch, hold] at h
        rcases h with rfl | hmem
        · simp [HuggingFaceClient.is_dataset_too_old] at hold
          exact hold
        · exact ih d hmem

/-- Every record the pagination loop ever yields is at or after the
cutoff — for an arbitrary source, limit and batch size. -/
theorem fetchLoop_fresh (limit B : Nat) (T now : Int) :
    ∀ (raws : List (List RawItem)) (fetched : Nat)
      (batch : List HFDatasetDTO) (d : HFDatasetDTO),
      batch ∈ (HuggingFaceClient.fetchLoop limit B (some T) now raws fetched).1 →
      d ∈ batch → T ≤ d.get_update_time now := by
  intro raws
  induction raws with
  | nil =>
    intro fetched batch d hb _
    by_cases hf : fetched < limit <;>
      simp [HuggingFaceClient.fetchLoop, hf] at hb
  | cons raw rest ih =>
    intro fetched batch d hb hd
    by_cases h1 : fetched < limit
    · by_cases h2 : HuggingFaceClient.should_stop_pagination raw B
      · simp [HuggingFaceClient.fetchLoop, h1, h2] at hb
      · rcases hp : HuggingFaceClient.process_raw_batch now (some T) raw
          with ⟨b, s⟩
        cases s with
        | true =>
          simp [HuggingFaceClient.fetchLoop, h1, h2, hp] at hb
          obtain ⟨-, rfl⟩ := hb
          refine process_raw_batch_fresh T now raw d ?_
          rw [hp]
          exact hd
        | false =>
          rcases hq : HuggingFaceClient.fetchLoop limit B (some T) now rest
              (fetched + b.length) with ⟨tl, reqs⟩
          simp [HuggingFaceClient.fetchLoop, h1, h2, hp, hq] at hb
          have hbtl : batch = b ∨ batch ∈ tl := by
            by_cases hbe : b = []
            · rw [if_pos hbe] at hb
              exact Or.inr hb
            · rw [if_neg hbe] at hb
              exact List.mem_cons.mp hb
          rcases hbtl with rfl | hmem
          · refine process_raw_batch_fresh T now raw d ?_
            rw [hp]
            exact hd
          · refine ih (fetched + b.length) batch d ?_ hd
            rw [hq]
            exact hmem
    · simp [HuggingFaceClient.fetchLoop, h1] at hb

/-- The pagination loop on a descending-sorted, fully-parsing,
full-page source: it yields exactly the fresh prefix of the record
stream, and requests pages only up to the one holding the first stale
record (all pages plus the final probe when no record is stale). -/
theorem fetchLoop_cutoff_aux (B limit : Nat) (T now : Int) (hB : 0 < B) :
    ∀ (pages : List (List HFDatasetDTO)) (fetched : Nat),
      (∀ p ∈ pages, p.length = B) →
      List.Pairwise
        (fun a b => b.get_update_time now ≤ a.get_update_time now)
        pages.flatten →
      fetched + pages.flatten.length < limit →
      (HuggingFaceClient.fetchLoop limit B (some T) now
          (rawPages pages) fetched).1.flatten =
        pages.flatten.takeWhile (freshAt T now) ∧
      (HuggingFaceClient.fetchLoop limit B (some T) now
          (rawPages pages) fetched).2 =
        (if (pages.flatten.takeWhile (freshAt T now)).length <
            pages.flatten.length
         then (pages.flatten.takeWhile (freshAt T now)).length / B + 1
         else pages.length + 1) := by
  intro pages
  induction pages with
  | nil =>
    intro fetched _ _ hlim
    have hf : fetched < limit := by simpa using hlim
    exact ⟨by simp [rawPages, HuggingFaceClient.fetchLoop, hf],
      by simp [rawPages, HuggingFaceClient.fetchLoop, hf]⟩
  | cons p ps ih =>
    intro fetched hFull hSorted hlim
    have hpB : p.length = B := hFull p (by simp)
    have hpne : p ≠ [] := by
      intro h
      rw [h] at hpB
      simp at hpB
      omega
    have hf : fetched < limit := by omega
    have hstop : HuggingFaceClient.should_stop_pagination
        (p.map (fun d => some d)) B = false := by
      simp [HuggingFaceClient.should_stop_pagination, hpB, hpne]
    have hproc := process_raw_batch_rawPages T now p
    have hraw : rawPages (p :: ps) =
        (p.map (fun d => some d)) :: rawPages ps := rfl
    by_cases hany : p.any (staleAt T now) = true
    · -- the cutoff record is inside this page: yield the fresh prefix
      -- of the page and stop after this single request
      have hany' : p.any (fun d => !(freshAt T now d)) = true := by
        simpa [freshAt] using hany
      have h1 : HuggingFaceClient.fetchLoop limit B (some T) now
          (rawPages (p :: ps)) fetched =
          ((if (p.takeWhile (freshAt T now)).isEmpty then []
            else [p.takeWhile (freshAt T now)]), 1) := by
        rw [hraw]
        simp [HuggingFaceClient.fetchLoop, hf, hstop, hproc, hany]
      have htw : (p :: ps).flatten.takeWhile (freshAt T now) =
          p.takeWhile (freshAt T now) := by
        rw [List.flatten_cons]
        exact takeWhile_append_of_any _ _ p hany'
      have hFlt : (p.takeWhile (freshAt T now)).length < p.length :=
        length_takeWhile_lt_of_any _ p hany'
      constructor
      · rw [h1, htw]
        exact flatten_if_isEmpty _
      · rw [h1, htw]
        have hcond : (p.takeWhile (freshAt T now)).length <
            (p :: ps).flatten.length := by
          rw [List.flatten_cons, List.length_append]
          exact Nat.lt_of_lt_of_le hFlt (Nat.le_add_right _ _)
        rw [if_pos hcond]
        rw [Nat.div_eq_of_lt (by rw [← hpB]; exact hFlt)]
    · -- no record of this full page is stale: yield it whole and recurse
      have hall : p.all (freshAt T now) = true := by
        rw [List.all_eq_true]
        intro x hx
        rw [List.any_eq_true] at hany
        push_neg at hany
        have := hany x hx
        simp [freshAt]
        simpa using this
      have htwp : p.takeWhile (freshAt T now) = p :=
        takeWhile_eq_self_of_all _ p hall
      rcases hq : HuggingFaceClient.fetchLoop limit B (some T) now
          (rawPages ps) (fetched + p.length) with ⟨tl, reqs⟩
      have hanyf : p.any (staleAt T now) = false :=
        Bool.eq_false_iff.mpr hany
      have hbe : p.isEmpty = false := by
        cases p with
        | nil => exact absurd rfl hpne
        | cons a as => rfl
      have h1 : HuggingFaceClient.fetchLoop limit B (some T) now
          (rawPages (p :: ps)) fetched = (p :: tl, 1 + reqs) := by
        rw [hraw]
        simp [HuggingFaceClient.fetchLoop, hf, hstop, hproc, hanyf, htwp,
          hbe, hq]
      have hSorted' : List.Pairwise
          (fun a b => b.get_update_time now ≤ a.get_update_time now)
          ps.flatten := by
        rw [List.flatten_cons] at hSorted
        exact (List.pairwise_append.mp hSorted).2.1
      have hlim' : fetched + p.length + ps.flatten.length < limit := by
        rw [List.flatten_cons, List.length_append] at hlim
        omega
      have ihh := ih (fetched + p.length)
        (fun q hqm => hFull q (List.mem_cons_of_mem _ hqm)) hSorted' hlim'
      rw [hq] at ihh
      have htwf : (p :: ps).flatten.takeWhile (freshAt T now) =
          p ++ ps.flatten.takeWhile (freshAt T now) := by
        rw [List.flatten_cons]
        exact takeWhile_append_of_all _ _ p hall
      constructor
      · rw [h1, htwf]
        simp only [List.flatten_cons]
        rw [ihh.1]
      · rw [h1]
        show 1 + reqs = _
        have hlen : (p ++ ps.flatten.takeWhile (freshAt T now)).length =
            B + (ps.flatten.takeWhile (freshAt T now)).length := by
          rw [List.length_append, hpB]
        have hflen : (p :: ps).flatten.length = B + ps.flatten.length := by
          rw [List.flatten_cons, List.length_append, hpB]
        rw [htwf, hlen, hflen]
        have hreqs : reqs =
            (if (ps.flatten.takeWhile (freshAt T now)).length <
                ps.flatten.length
             then (ps.flatten.takeWhile (freshAt T now)).length / B + 1
             else ps.length + 1) := ihh.2
        have hle : (ps.flatten.takeWhile (freshAt T now)).length ≤
            ps.flatten.length :=
          (List.takeWhile_sublist _).length_le
        by_cases hc : (ps.flatten.takeWhile (freshAt T now)).length <
            ps.flatten.length
        · rw [if_pos hc] at hreqs
          rw [if_pos (by omega)]
          have hdiv : (B + (ps.flatten.takeWhile (freshAt T now)).length) / B =
              (ps.flatten.takeWhile (freshAt T now)).length / B + 1 := by
            rw [Nat.add_comm, Nat.add_div_right _ hB]
          omega
        · rw [if_neg hc] at hreqs
          rw [if_neg (by omega)]
          simp only [List.length_cons]
          omega

/-- C2 (amended): on a descending-sorted, fully-parsing source whose
pages are all full (page size = batch size) and whose record count is
below the configured overall limit, `fetch_latest_datasets` with cutoff
`T` yields exactly the records with update time ≥ `T` (the fresh prefix
of the stream); over **any** source it yields zero records with update
time < `T`; and it requests no page beyond the one holding the first
stale record (when no record is stale it requests every page plus the
final empty/404 probe).  The original claim's "yields every record
≥ T" fails for undersized pages, which the loop discards before
processing — see the counterexample. -/
theorem fetch_latest_datasets_cutoff (pages : List (List HFDatasetDTO))
    (B limit : Nat) (T now : Int) (hB : 0 < B)
    (hFull : ∀ p ∈ pages, p.length = B)
    (hSorted : List.Pairwise
      (fun a b => b.get_update_time now ≤ a.get_update_time now)
      pages.flatten)
    (hLimit : pages.flatten.length < limit) :
    (HuggingFaceClient.fetch_latest_datasets (rawPages pages)
        limit B (some T) now).1.flatten =
      pages.flatten.takeWhile (freshAt T now) ∧
    (∀ (raws : List (List RawItem)) (limit' B' : Nat)
      (batch : List HFDatasetDTO) (d : HFDatasetDTO),
      batch ∈ (HuggingFaceClient.fetch_latest_datasets raws limit' B'
        (some T) now).1 →
      d ∈ batch → T ≤ d.get_update_time now) ∧
    (HuggingFaceClient.fetch_latest_datasets (rawPages pages)
        limit B (some T) now).2 =
      (if (pages.flatten.takeWhile (freshAt T now)).length <
          pages.flatten.length
       then (pages.flatten.takeWhile (freshAt T now)).length / B + 1
       else pages.length + 1) := by
  have h := fetchLoop_cutoff_aux B limit T now hB pages 0 hFull hSorted
    (by simpa using hLimit)
  exact ⟨h.1,
    fun raws limit' B' batch d hb hd =>
      fetchLoop_fresh limit' B' T now raws 0 batch d hb hd,
    h.2⟩

/-- Counterexample to C2 as stated: batch size 2, cutoff 5, and a
descending-sorted source whose only page holds a single record updated
at 10.  That record is at-or-after the cutoff, yet the fetcher yields
nothing — the undersized page is discarded by `_should_stop_pagination`
before `_process_raw_batch` ever sees it. -/
theorem fetch_cutoff_counterexample :
    (5 : Int) ≤ (hfDto 10).get_update_time 0 ∧
    HuggingFaceClient.fetch_latest_datasets [[some (hfDto 10)]] 100 2
      (some 5) 0 = ([], 1) :=
  ⟨by decide, rfl⟩

/-- Witness for C2 (amended) at the spec's own scenario: page size 2,
cutoff 5, pages [10, 9] and [3, 2] — exactly the two fresh records come
back and exactly two pages are requested. -/
theorem fetch_latest_datasets_cutoff_witness :
    (HuggingFaceClient.fetch_latest_datasets
        (rawPages [[hfDto 10, hfDto 9], [hfDto 3, hfDto 2]]) 100 2
        (some 5) 0).1.flatten = [hfDto 10, hfDto 9] ∧
    (HuggingFaceClient.fetch_latest_datasets
        (rawPages [[hfDto 10, hfDto 9], [hfDto 3, hfDto 2]]) 100 2
        (some 5) 0).2 = 2 := by
  have h := fetch_latest_datasets_cutoff
    [[hfDto 10, hfDto 9], [hfDto 3, hfDto 2]] 2 100 5 0
    (by decide) (by decide) (by decide) (by decide)
  exact ⟨h.1.trans (by decide), h.2.2.trans (by decide)⟩

/-- Witness for C5 on the sample row. -/
theorem mark_failed_spec_witness :
    ∃ r', findById (DatasetRepository.mark_failed [sampleRow] 1 ("boom")) 1 =
      some r' ∧
      r'.enrichment_status = EnrichmentStatus.failed.value ∧
      r'.last_enrichment_error = some ("boom") ∧
      r'.is_active = false :=
  (mark_failed_spec [sampleRow] 1 ("boom") sampleRow rfl).1

end Datasearch
